import Mathlib

/-!
Shallow embedding of the radish repository (a Redis-like in-memory key/value
server and client speaking the RESP wire protocol) and proofs about its
specification claims.

Byte strings are modelled as `List Nat` (one `Nat` per byte).  Python values
flowing through the codec (`bytes`, `int`, the `Error` namedtuple, `None`,
`list`/`tuple`) are modelled by the inductive type `Val`.  Python exceptions
are modelled by `RErr`; exceptions that are not part of the radish exception
hierarchy (`TypeError`, `AttributeError`, `ValueError`, ...) are collapsed
into the `hostError` constructor.
-/

namespace Radish

/-- A Python byte string: one `Nat` per byte. -/
abbrev Bytes := List Nat

/-- ASCII bytes of a Lean string literal (used for protocol constants and
error messages, all of which are ASCII in the source). -/
def strBytes (s : String) : Bytes := s.data.map Char.toNat

/-- The dynamic Python values produced and consumed by the protocol layer
of `src/radish/protocol.py`: `bytes`, `int`, the `Error` namedtuple,
`None`, and `list`/`tuple` of these. -/
inductive Val where
  | bulk (s : Bytes)
  | int (i : Int)
  | err (m : Bytes)
  | null
  | arr (elems : List Val)
deriving Repr

mutual
/-- Boolean equality on `Val` (Python `==` on the value domain). -/
def valBEq : Val → Val → Bool
  | .bulk s, .bulk t => s == t
  | .int i, .int j => i == j
  | .err m, .err n => m == n
  | .null, .null => true
  | .arr l, .arr k => valListBEq l k
  | _, _ => false

/-- Pointwise boolean equality on lists of `Val`. -/
def valListBEq : List Val → List Val → Bool
  | [], [] => true
  | a :: as, b :: bs => valBEq a b && valListBEq as bs
  | _, _ => false
end

mutual
theorem valBEq_eq : ∀ a b, valBEq a b = true → a = b
  | .bulk s, .bulk t, h => by simpa [valBEq] using h
  | .bulk _, .int _, h | .bulk _, .err _, h | .bulk _, .null, h | .bulk _, .arr _, h =>
      by simp [valBEq] at h
  | .int _, .bulk _, h | .int _, .err _, h | .int _, .null, h | .int _, .arr _, h =>
      by simp [valBEq] at h
  | .int i, .int j, h => by simpa [valBEq] using h
  | .err _, .bulk _, h | .err _, .int _, h | .err _, .null, h | .err _, .arr _, h =>
      by simp [valBEq] at h
  | .err m, .err n, h => by simpa [valBEq] using h
  | .null, .bulk _, h | .null, .int _, h | .null, .err _, h | .null, .arr _, h =>
      by simp [valBEq] at h
  | .null, .null, _ => rfl
  | .arr _, .bulk _, h | .arr _, .int _, h | .arr _, .err _, h | .arr _, .null, h =>
      by simp [valBEq] at h
  | .arr l, .arr k, h => by
      have := valListBEq_eq l k (by simpa [valBEq] using h)
      simp [this]

theorem valListBEq_eq : ∀ l k, valListBEq l k = true → l = k
  | [], [], _ => rfl
  | [], _ :: _, h => by simp [valListBEq] at h
  | _ :: _, [], h => by simp [valListBEq] at h
  | a :: as, b :: bs, h => by
      have h' : valBEq a b = true ∧ valListBEq as bs = true := by
        simpa [valListBEq, Bool.and_eq_true] using h
      have h1 := valBEq_eq a b h'.1
      have h2 := valListBEq_eq as bs h'.2
      simp [h1, h2]
end

mutual
theorem valBEq_refl : ∀ a, valBEq a a = true
  | .bulk s => by simp [valBEq]
  | .int i => by simp [valBEq]
  | .err m => by simp [valBEq]
  | .null => by simp [valBEq]
  | .arr l => by simpa [valBEq] using valListBEq_refl l

theorem valListBEq_refl : ∀ l, valListBEq l l = true
  | [] => rfl
  | a :: as => by
      simp [valListBEq, Bool.and_eq_true]
      exact ⟨valBEq_refl a, valListBEq_refl as⟩
end

instance : DecidableEq Val := fun a b =>
  if h : valBEq a b = true then .isTrue (valBEq_eq a b h)
  else .isFalse fun he => h (he ▸ valBEq_refl a)

instance {ε α : Type} [DecidableEq ε] [DecidableEq α] : DecidableEq (Except ε α) := fun a b =>
  match a, b with
  | .ok x, .ok y => if h : x = y then .isTrue (by simp [h]) else .isFalse (by simp [h])
  | .error x, .error y => if h : x = y then .isTrue (by simp [h]) else .isFalse (by simp [h])
  | .ok _, .error _ => .isFalse (by simp)
  | .error _, .ok _ => .isFalse (by simp)

/-- Exceptions raised by the modelled code.  The first four mirror the
`radish.exceptions` hierarchy (messages kept as strings); `osConnError`
models Python's builtin `ConnectionError` family (reset / broken pipe);
`hostError` models any other Python-level exception (`TypeError`,
`AttributeError`, `ValueError`, ...). -/
inductive RErr where
  | badRequest (msg : String)
  | connError (msg : String)
  | protocolError (msg : String)
  | clientError (msg : String)
  | osConnError
  | hostError (msg : String)
deriving DecidableEq, Repr

/-- `CLIENT_CONNECTION_TIMEOUT` from `src/radish/protocol.py`. -/
def CLIENT_CONNECTION_TIMEOUT : Nat := 300

/-- Decimal digits (most significant first) of a natural number, as ASCII
bytes; fuelled so that it is structural recursion (the fuel `n + 1` always
suffices).  Mirrors the `%d` formatting used by `_write_response`. -/
def natToDecAux : Nat → Nat → Bytes
  | 0, _ => []
  | fuel + 1, n => if n < 10 then [n + 48] else natToDecAux fuel (n / 10) ++ [n % 10 + 48]

/-- ASCII decimal rendering of a natural number (`b'%d' % n`). -/
def natToDec (n : Nat) : Bytes := natToDecAux (n + 1) n

/-- ASCII decimal rendering of a signed integer (`b'%d' % i`). -/
def intToDec : Int → Bytes
  | .ofNat n => natToDec n
  | .negSucc n => 45 :: natToDec (n + 1)

/-- CR LF. -/
def crlf : Bytes := [13, 10]

mutual
/-- `_write_response` of `src/radish/protocol.py`, written to an in-memory
buffer: the RESP encoding of a value.  The `isinstance` dispatch order of the
source (bytes, int, Error, list/tuple, None) is mirrored by the disjoint
constructors of `Val`. -/
def encodeVal : Val → Bytes
  | .bulk s => 36 :: (natToDec s.length ++ crlf ++ s ++ crlf)
  | .int i => 58 :: (intToDec i ++ crlf)
  | .err m => 45 :: (m ++ crlf)
  | .null => [36, 45, 49, 13, 10]
  | .arr l => 42 :: (natToDec l.length ++ crlf ++ encodeList l)

/-- Concatenated encodings of the items of a list (the `for item in data`
loop of `_write_response`). -/
def encodeList : List Val → Bytes
  | [] => []
  | v :: vs => encodeVal v ++ encodeList vs
end

/-- `StreamReader.readline()`: the bytes up to and including the first
LF, or everything up to EOF; paired with the rest of the stream. -/
def readLine : Bytes → Bytes × Bytes
  | [] => ([], [])
  | b :: rest =>
    if b = 10 then ([10], rest)
    else
      let p := readLine rest
      (b :: p.1, p.2)

/-- ASCII whitespace as recognised by Python's `bytes.strip()`. -/
def isSpace (b : Nat) : Bool := b = 32 || b = 9 || b = 10 || b = 13 || b = 11 || b = 12

/-- Python `bytes.strip()` with no argument. -/
def stripBytes (s : Bytes) : Bytes :=
  ((s.dropWhile isSpace).reverse.dropWhile isSpace).reverse

/-- Whether every byte is an ASCII digit. -/
def allDigits (s : Bytes) : Bool := s.all fun b => 48 ≤ b && b ≤ 57

/-- Value of an ASCII digit string, most significant digit first. -/
def digitsVal (s : Bytes) : Nat := s.foldl (fun acc b => acc * 10 + (b - 48)) 0

/-- A nonempty all-digit string, or failure. -/
def parseDigits (s : Bytes) : Option Nat :=
  if s ≠ [] ∧ allDigits s then some (digitsVal s) else none

/-- Python `int()` applied to an already-stripped byte string: an optional
sign followed by decimal digits (digit-group underscores are not modelled;
no caller in the source produces them). `none` models `ValueError`. -/
def parsePyInt (s : Bytes) : Option Int :=
  match s with
  | [] => none
  | b :: rest =>
    if b = 45 then (parseDigits rest).map fun n => -(n : Int)
    else if b = 43 then (parseDigits rest).map fun n => (n : Int)
    else (parseDigits s).map fun n => (n : Int)

/-- Python `x[:-2]`: drop the last two bytes. -/
def dropLast2 (l : Bytes) : Bytes := l.take (l.length - 2)

/-- `StreamReader.read(n)` on a buffered stream: for `n < 0` read to EOF,
otherwise read at most `n` bytes; paired with the rest of the stream. -/
def readN (n : Int) (s : Bytes) : Bytes × Bytes :=
  if n < 0 then (s, []) else (s.take n.toNat, s.drop n.toNat)

mutual
/-- `process_reader` of `src/radish/protocol.py` on a fully-buffered stream
(the first-byte timeout is modelled separately by `processReader`): decode
one RESP value, returning it together with the unconsumed rest of the
stream.  `fuel` only measures recursion depth; it strictly decreases on
every recursive call so the definition is structural (every concrete
evaluation is exact once the fuel is large enough, see `decodeCost`). -/
def decodeVal : Nat → Bytes → Except RErr (Val × Bytes)
  | 0, _ => .error (.hostError "fuel exhausted")
  | _ + 1, [] => .error (.connError "Empty request")
  | fuel + 1, b :: rest =>
    if b = 43 then
      let p := readLine rest
      .ok (.bulk (stripBytes p.1), p.2)
    else if b = 45 then
      let p := readLine rest
      .ok (.err (stripBytes p.1), p.2)
    else if b = 58 then
      let p := readLine rest
      match parsePyInt (stripBytes p.1) with
      | some i => .ok (.int i, p.2)
      | none => .error (.hostError "ValueError")
    else if b = 36 then
      let p := readLine rest
      match parsePyInt (stripBytes p.1) with
      | none => .error (.hostError "ValueError")
      | some len =>
        if len = -1 then .ok (.null, p.2)
        else
          let q := readN (len + 2) p.2
          .ok (.bulk (dropLast2 q.1), q.2)
    else if b = 42 then
      let p := readLine rest
      match parsePyInt (stripBytes p.1) with
      | none => .error (.hostError "ValueError")
      | some n =>
        if n = -1 then .ok (.arr [.null], p.2)
        else if n < 0 then .error (.badRequest "Bad array length")
        else
          match decodeItems fuel n.toNat p.2 with
          | .ok q => .ok (.arr q.1, q.2)
          | .error e => .error e
    else .error (.badRequest "Bad first byte")

/-- The element loop of `_process_array`: decode `n` further values. -/
def decodeItems : Nat → Nat → Bytes → Except RErr (List Val × Bytes)
  | 0, _, _ => .error (.hostError "fuel exhausted")
  | _ + 1, 0, s => .ok ([], s)
  | fuel + 1, n + 1, s =>
    match decodeVal fuel s with
    | .error e => .error e
    | .ok p =>
      match decodeItems fuel n p.2 with
      | .error e => .error e
      | .ok q => .ok (p.1 :: q.1, q.2)
end

/-- What the first `reader.read(1)` (under `asyncio.wait_for`) observed:
either the timeout fired, or the stream contents are available. -/
inductive ReadEvent where
  | timeout
  | avail (s : Bytes)
deriving DecidableEq, Repr

/-- Top-level `process_reader`: the `asyncio.wait_for` timeout on the first
byte maps to `RadishConnectionError(b'Timeout error')`; an empty stream
(EOF) maps to `RadishConnectionError(b'Empty request')`; otherwise the
recursive decoder runs with ample fuel (one more than the stream length,
which `decode_encode` shows is enough on encoder output). -/
def processReader : ReadEvent → Except RErr (Val × Bytes)
  | .timeout => .error (.connError "Timeout error")
  | .avail s => decodeVal (s.length + 1) s

/-! ### Decimal rendering / parsing round trip -/

theorem natToDecAux_spec : ∀ fuel n, n < fuel →
    natToDecAux fuel n ≠ [] ∧ (∀ b ∈ natToDecAux fuel n, 48 ≤ b ∧ b ≤ 57) ∧
      digitsVal (natToDecAux fuel n) = n := by
  intro fuel
  induction fuel with
  | zero => intro n h; omega
  | succ fuel ih =>
    intro n h
    by_cases h10 : n < 10
    · refine ⟨by simp [natToDecAux, h10], ?_, ?_⟩
      · simp only [natToDecAux, if_pos h10]
        intro b hb
        simp only [List.mem_singleton] at hb
        omega
      · simp [natToDecAux, if_pos h10, digitsVal]
    · have hdiv : n / 10 < fuel := by omega
      obtain ⟨hne, hdig, hval⟩ := ih (n / 10) hdiv
      refine ⟨by simp [natToDecAux, h10], ?_, ?_⟩
      · simp only [natToDecAux, if_neg h10]
        intro b hb
        rcases List.mem_append.mp hb with hb | hb
        · exact hdig b hb
        · simp only [List.mem_singleton] at hb
          omega
      · simp only [natToDecAux, if_neg h10, digitsVal, List.foldl_append]
        have : digitsVal (natToDecAux fuel (n / 10)) = n / 10 := hval
        simp only [digitsVal] at this
        simp only [List.foldl, this]
        omega

theorem natToDec_ne_nil (n : Nat) : natToDec n ≠ [] :=
  (natToDecAux_spec (n + 1) n (by omega)).1

theorem natToDec_digits (n : Nat) : ∀ b ∈ natToDec n, 48 ≤ b ∧ b ≤ 57 :=
  (natToDecAux_spec (n + 1) n (by omega)).2.1

theorem digitsVal_natToDec (n : Nat) : digitsVal (natToDec n) = n :=
  (natToDecAux_spec (n + 1) n (by omega)).2.2

theorem parseDigits_natToDec (n : Nat) : parseDigits (natToDec n) = some n := by
  have hall : allDigits (natToDec n) = true := by
    simp only [allDigits, List.all_eq_true, Bool.and_eq_true, decide_eq_true_eq]
    intro b hb
    have := natToDec_digits n b hb
    omega
  simp [parseDigits, natToDec_ne_nil n, hall, digitsVal_natToDec n]

theorem parsePyInt_natToDec (n : Nat) : parsePyInt (natToDec n) = some (n : Int) := by
  rcases hd : natToDec n with _ | ⟨b, rest⟩
  · exact absurd hd (natToDec_ne_nil n)
  · have hb : 48 ≤ b ∧ b ≤ 57 := natToDec_digits n b (by simp [hd])
    have h45 : ¬b = 45 := by omega
    have h43 : ¬b = 43 := by omega
    have := parseDigits_natToDec n
    rw [hd] at this
    simp [parsePyInt, h45, h43, this]

theorem parsePyInt_intToDec (i : Int) : parsePyInt (intToDec i) = some i := by
  cases i with
  | ofNat n => simpa [intToDec] using parsePyInt_natToDec n
  | negSucc n =>
    simp only [intToDec, parsePyInt, if_pos rfl]
    rw [parseDigits_natToDec (n + 1)]
    simp [Int.negSucc_eq]

theorem intToDec_not_lf : ∀ b ∈ intToDec i, b ≠ 10 := by
  intro b hb
  cases i with
  | ofNat n =>
    simp only [intToDec] at hb
    have := natToDec_digits n b hb
    omega
  | negSucc n =>
    simp only [intToDec, List.mem_cons] at hb
    rcases hb with hb | hb
    · omega
    · have := natToDec_digits (n + 1) b hb
      omega

theorem isSpace_false_of_sign_digit (b : Nat) (h : b = 45 ∨ (48 ≤ b ∧ b ≤ 57)) :
    isSpace b = false := by
  simp only [isSpace, Bool.or_eq_false_iff, decide_eq_false_iff_not]
  rcases h with h | h <;> omega

theorem intToDec_not_space : ∀ b ∈ intToDec i, isSpace b = false := by
  intro b hb
  refine isSpace_false_of_sign_digit b ?_
  cases i with
  | ofNat n =>
    simp only [intToDec] at hb
    exact Or.inr (natToDec_digits n b hb)
  | negSucc n =>
    simp only [intToDec, List.mem_cons] at hb
    rcases hb with hb | hb
    · exact Or.inl hb
    · exact Or.inr (natToDec_digits (n + 1) b hb)

/-! ### Line framing and stripping -/

/-- `readline` on a buffered stream: a LF-free prefix followed by a LF is
read as one line. -/
theorem readLine_append (l : Bytes) (r : Bytes) (h : ∀ b ∈ l, b ≠ 10) :
    readLine (l ++ 10 :: r) = (l ++ [10], r) := by
  induction l with
  | nil => simp [readLine]
  | cons a l ih =>
    have ha : a ≠ 10 := h a (by simp)
    have ih' := ih fun b hb => h b (by simp [hb])
    simp [readLine, ha, ih']

/-- `readline` on a CRLF-terminated line whose body contains no LF. -/
theorem readLine_crlf (l : Bytes) (r : Bytes) (h : ∀ b ∈ l, b ≠ 10) :
    readLine (l ++ ([13, 10] ++ r)) = (l ++ [13, 10], r) := by
  have h' : ∀ b ∈ l ++ [13], b ≠ 10 := by
    intro b hb
    rcases List.mem_append.mp hb with hb | hb
    · exact h b hb
    · simp only [List.mem_singleton] at hb
      omega
  have := readLine_append (l ++ [13]) r h'
  simpa [List.append_assoc] using this

theorem dropWhile_eq_self_of_not (l : Bytes) (h : ∀ b ∈ l, isSpace b = false) :
    l.dropWhile isSpace = l := by
  cases l with
  | nil => rfl
  | cons a l => simp [List.dropWhile_cons, h a (by simp)]

/-- `bytes.strip()` of a CRLF-terminated line removes exactly the CRLF when
the body is nonempty and has no leading or trailing whitespace (expressed by
the body being its own `dropWhile` on both ends). -/
theorem stripBytes_crlf (l : Bytes) (hne : l ≠ [])
    (h1 : l.dropWhile isSpace = l) (h2 : l.reverse.dropWhile isSpace = l.reverse) :
    stripBytes (l ++ [13, 10]) = l := by
  rcases l with _ | ⟨a, l'⟩
  · exact absurd rfl hne
  · have ha : isSpace a = false := by
      by_contra hcon
      have ha' : isSpace a = true := by
        cases hx : isSpace a
        · exact absurd hx hcon
        · rfl
      have : (a :: l').dropWhile isSpace = l'.dropWhile isSpace := by
        simp [List.dropWhile_cons, ha']
      rw [this] at h1
      have hlen := congrArg List.length h1
      have : (l'.dropWhile isSpace).length ≤ l'.length :=
        (List.dropWhile_suffix (l := l') isSpace).length_le
      simp at hlen
      omega
    simp only [stripBytes]
    have step1 : ((a :: l') ++ [13, 10]).dropWhile isSpace = (a :: l') ++ [13, 10] := by
      simp [List.dropWhile_cons, ha]
    rw [step1]
    have step2 : ((a :: l') ++ [13, 10]).reverse = 10 :: 13 :: (a :: l').reverse := by
      simp
    rw [step2]
    have s10 : isSpace 10 = true := by decide
    have s13 : isSpace 13 = true := by decide
    simp only [List.dropWhile_cons, s10, s13, if_pos rfl]
    rw [h2]
    simp

/-- Strip of a digit/sign-only line: the body is whitespace-free. -/
theorem stripBytes_crlf_of_not (l : Bytes) (hne : l ≠ [])
    (h : ∀ b ∈ l, isSpace b = false) : stripBytes (l ++ [13, 10]) = l := by
  refine stripBytes_crlf l hne (dropWhile_eq_self_of_not l h) ?_
  refine dropWhile_eq_self_of_not l.reverse ?_
  intro b hb
  exact h b (List.mem_reverse.mp hb)

/-! ### Branch lemmas for the decoder -/

theorem decodeVal_plus (fuel : Nat) (rest : Bytes) :
    decodeVal (fuel + 1) (43 :: rest) =
      .ok (.bulk (stripBytes (readLine rest).1), (readLine rest).2) := by
  simp [decodeVal]

theorem decodeVal_minus (fuel : Nat) (rest : Bytes) :
    decodeVal (fuel + 1) (45 :: rest) =
      .ok (.err (stripBytes (readLine rest).1), (readLine rest).2) := by
  simp [decodeVal]

theorem decodeVal_colon (fuel : Nat) (rest : Bytes) :
    decodeVal (fuel + 1) (58 :: rest) =
      (match parsePyInt (stripBytes (readLine rest).1) with
       | some i => .ok (.int i, (readLine rest).2)
       | none => .error (.hostError "ValueError")) := by
  simp [decodeVal]

theorem decodeVal_dollar (fuel : Nat) (rest : Bytes) :
    decodeVal (fuel + 1) (36 :: rest) =
      (match parsePyInt (stripBytes (readLine rest).1) with
       | none => .error (.hostError "ValueError")
       | some len =>
         if len = -1 then .ok (.null, (readLine rest).2)
         else
           .ok (.bulk (dropLast2 (readN (len + 2) (readLine rest).2).1),
                (readN (len + 2) (readLine rest).2).2)) := by
  simp [decodeVal]

theorem decodeVal_star (fuel : Nat) (rest : Bytes) :
    decodeVal (fuel + 1) (42 :: rest) =
      (match parsePyInt (stripBytes (readLine rest).1) with
       | none => .error (.hostError "ValueError")
       | some n =>
         if n = -1 then .ok (.arr [.null], (readLine rest).2)
         else if n < 0 then .error (.badRequest "Bad array length")
         else
           match decodeItems fuel n.toNat (readLine rest).2 with
           | .ok q => .ok (.arr q.1, q.2)
           | .error e => .error e) := by
  simp [decodeVal]

theorem decodeVal_bad_first (fuel : Nat) (b : Nat) (rest : Bytes)
    (h43 : b ≠ 43) (h45 : b ≠ 45) (h58 : b ≠ 58) (h36 : b ≠ 36) (h42 : b ≠ 42) :
    decodeVal (fuel + 1) (b :: rest) = .error (.badRequest "Bad first byte") := by
  simp [decodeVal, h43, h45, h58, h36, h42]

/-! ### Framing helpers for encoder output -/

theorem readLine_nat (n : Nat) (tail : Bytes) :
    readLine (natToDec n ++ ([13, 10] ++ tail)) = (natToDec n ++ [13, 10], tail) := by
  refine readLine_crlf _ _ ?_
  intro b hb
  have := natToDec_digits n b hb
  omega

theorem stripBytes_nat (n : Nat) : stripBytes (natToDec n ++ [13, 10]) = natToDec n := by
  refine stripBytes_crlf_of_not _ (natToDec_ne_nil n) ?_
  intro b hb
  exact isSpace_false_of_sign_digit b (Or.inr (natToDec_digits n b hb))

theorem intToDec_ne_nil (i : Int) : intToDec i ≠ [] := by
  cases i with
  | ofNat n => exact natToDec_ne_nil n
  | negSucc n => simp [intToDec]

theorem readLine_int (i : Int) (tail : Bytes) :
    readLine (intToDec i ++ ([13, 10] ++ tail)) = (intToDec i ++ [13, 10], tail) :=
  readLine_crlf _ _ fun b hb => intToDec_not_lf b hb

theorem stripBytes_int (i : Int) : stripBytes (intToDec i ++ [13, 10]) = intToDec i :=
  stripBytes_crlf_of_not _ (intToDec_ne_nil i) fun b hb => intToDec_not_space b hb

/-! ### The generator domain and decode-of-encode -/

/-- The designated `Error` value of the spec's generator domain
(`Error(b'Error message')`, the spec's own example message). -/
def designatedMsg : Bytes := strBytes "Error message"

/-- The generator domain of the spec's round-trip property: byte strings,
signed integers, the designated Error, null, and arbitrarily nested arrays
of these. -/
inductive GenVal : Val → Prop where
  | bulk (s : Bytes) : GenVal (.bulk s)
  | int (i : Int) : GenVal (.int i)
  | err : GenVal (.err designatedMsg)
  | null : GenVal .null
  | arr (l : List Val) : (∀ v ∈ l, GenVal v) → GenVal (.arr l)

mutual
/-- Recursion depth the decoder needs for a value. -/
def decodeCost : Val → Nat
  | .arr l => 1 + decodeCostItems l
  | _ => 1

/-- Recursion depth the decoder needs for the items of an array. -/
def decodeCostItems : List Val → Nat
  | [] => 1
  | v :: vs => 1 + max (decodeCost v) (decodeCostItems vs)
end

theorem decodeCost_pos (v : Val) : 1 ≤ decodeCost v := by
  cases v <;> simp [decodeCost]

theorem decodeCostItems_pos (l : List Val) : 1 ≤ decodeCostItems l := by
  cases l <;> simp [decodeCostItems]

mutual
/-- Decoding an encoded value from the front of a stream returns exactly
that value and leaves the rest of the stream untouched, for any fuel at
least the value's recursion depth. -/
theorem decode_encode : ∀ fuel v rest, GenVal v → decodeCost v ≤ fuel →
    decodeVal fuel (encodeVal v ++ rest) = .ok (v, rest)
  | 0, v, _, _, hc => absurd hc (by have := decodeCost_pos v; omega)
  | fuel + 1, v, rest, hv, _ => by
    cases hv with
    | bulk s =>
      have hshape : encodeVal (.bulk s) ++ rest =
          36 :: (natToDec s.length ++ ([13, 10] ++ (s ++ ([13, 10] ++ rest)))) := by
        simp [encodeVal, crlf]
      rw [hshape, decodeVal_dollar, readLine_nat, stripBytes_nat, parsePyInt_natToDec]
      have hne : ¬((s.length : Int) = -1) := by omega
      simp only [if_neg hne]
      have hlen : ((s.length : Int) + 2).toNat = s.length + 2 := by omega
      have hnotneg : ¬((s.length : Int) + 2 < 0) := by omega
      simp only [readN, if_neg hnotneg, hlen]
      have htake : (s ++ ([13, 10] ++ rest)).take (s.length + 2) = s ++ [13, 10] := by
        rw [show s ++ ([13, 10] ++ rest) = (s ++ [13, 10]) ++ rest by simp]
        exact List.take_left' (by simp)
      have hdrop : (s ++ ([13, 10] ++ rest)).drop (s.length + 2) = rest := by
        rw [show s ++ ([13, 10] ++ rest) = (s ++ [13, 10]) ++ rest by simp]
        exact List.drop_left' (by simp)
      rw [htake, hdrop]
      have : dropLast2 (s ++ [13, 10]) = s := by
        simp only [dropLast2, List.length_append]
        exact List.take_left' (by simp)
      rw [this]
    | int i =>
      have hshape : encodeVal (.int i) ++ rest =
          58 :: (intToDec i ++ ([13, 10] ++ rest)) := by
        simp [encodeVal, crlf]
      rw [hshape, decodeVal_colon, readLine_int, stripBytes_int, parsePyInt_intToDec]
    | err =>
      have hshape : encodeVal (.err designatedMsg) ++ rest =
          45 :: (designatedMsg ++ ([13, 10] ++ rest)) := by
        simp [encodeVal, crlf]
      rw [hshape, decodeVal_minus,
        readLine_crlf designatedMsg rest (by decide),
        stripBytes_crlf designatedMsg (by decide) (by decide) (by decide)]
    | null =>
      have hshape : encodeVal Val.null ++ rest =
          36 :: ([45, 49] ++ ([13, 10] ++ rest)) := by
        simp [encodeVal]
      rw [hshape, decodeVal_dollar, readLine_crlf [45, 49] rest (by decide),
        stripBytes_crlf_of_not [45, 49] (by decide) (by decide)]
      simp [parsePyInt, parseDigits, allDigits, digitsVal]
    | arr l hl =>
      have hshape : encodeVal (.arr l) ++ rest =
          42 :: (natToDec l.length ++ ([13, 10] ++ (encodeList l ++ rest))) := by
        simp [encodeVal, crlf]
      rw [hshape, decodeVal_star, readLine_nat, stripBytes_nat, parsePyInt_natToDec]
      have hne : ¬((l.length : Int) = -1) := by omega
      have hnn : ¬((l.length : Int) < 0) := by omega
      simp only [if_neg hne, if_neg hnn]
      have htn : ((l.length : Int)).toNat = l.length := by omega
      rw [htn,
        decode_encode_items fuel l rest hl (by
          have : decodeCost (.arr l) ≤ fuel + 1 := by assumption
          simp only [decodeCost] at this
          omega)]
  termination_by fuel => (fuel, 0)

/-- Decoding the concatenated encodings of `n = l.length` values returns
exactly those values. -/
theorem decode_encode_items : ∀ fuel l rest, (∀ v ∈ l, GenVal v) →
    decodeCostItems l ≤ fuel →
    decodeItems fuel l.length (encodeList l ++ rest) = .ok (l, rest)
  | 0, l, _, _, hc => absurd hc (by have := decodeCostItems_pos l; omega)
  | fuel + 1, [], rest, _, _ => by simp [decodeItems, encodeList]
  | fuel + 1, v :: vs, rest, hmem, hc => by
    have hcost : 1 + max (decodeCost v) (decodeCostItems vs) ≤ fuel + 1 := by
      simpa [decodeCostItems] using hc
    have hv : decodeCost v ≤ fuel := by
      have := Nat.le_max_left (decodeCost v) (decodeCostItems vs); omega
    have hvs : decodeCostItems vs ≤ fuel := by
      have := Nat.le_max_right (decodeCost v) (decodeCostItems vs); omega
    have hshape : encodeList (v :: vs) ++ rest = encodeVal v ++ (encodeList vs ++ rest) := by
      simp [encodeList]
    simp only [List.length_cons, hshape, decodeItems]
    rw [decode_encode fuel v (encodeList vs ++ rest) (hmem v (by simp)) hv]
    simp only [decode_encode_items fuel vs rest (fun w hw => hmem w (by simp [hw])) hvs]
  termination_by fuel => (fuel, 1)
end

theorem encodeVal_length_pos (v : Val) : 1 ≤ (encodeVal v).length := by
  cases v <;> simp [encodeVal]

mutual
/-- The decoder's recursion depth never exceeds the encoded length. -/
theorem decodeCost_le_length : ∀ v : Val, decodeCost v ≤ (encodeVal v).length
  | .bulk s => by simp [decodeCost, encodeVal]
  | .int i => by simp [decodeCost, encodeVal]
  | .err m => by simp [decodeCost, encodeVal]
  | .null => by simp [decodeCost, encodeVal]
  | .arr l => by
    have h := decodeCostItems_le_length l
    simp only [decodeCost, encodeVal, List.length_cons, List.length_append]
    have := natToDec_ne_nil l.length
    have hpos : 1 ≤ (natToDec l.length).length := by
      cases hx : natToDec l.length
      · exact absurd hx this
      · simp
    simp [crlf] at *
    omega

theorem decodeCostItems_le_length : ∀ l : List Val,
    decodeCostItems l ≤ (encodeList l).length + 1
  | [] => by simp [decodeCostItems, encodeList]
  | v :: vs => by
    have h1 := decodeCost_le_length v
    have h2 := decodeCostItems_le_length vs
    have h3 := encodeVal_length_pos v
    simp only [decodeCostItems, encodeList, List.length_append]
    have ha : decodeCost v ≤ (encodeVal v).length + (encodeList vs).length := by omega
    have hb : decodeCostItems vs ≤ (encodeVal v).length + (encodeList vs).length := by omega
    have hl := Nat.max_le.mpr ⟨ha, hb⟩
    omega
end

/-- C1: for every RESP value in the generator domain (byte strings, signed
integers — a superset of i64 —, the designated Error value, null, and
arbitrarily nested arrays of these), decoding the bytes produced by encoding
`v` yields `v` again with the stream fully consumed; and encoding is
deterministic (it is a pure function of the value, so equal inputs give
identical byte sequences). -/
theorem respRoundtrip (v : Val) (hv : GenVal v) :
    processReader (.avail (encodeVal v)) = .ok (v, []) ∧
      ∀ w : Val, w = v → encodeVal w = encodeVal v := by
  constructor
  · have hfuel : decodeCost v ≤ (encodeVal v).length + 1 :=
      Nat.le_trans (decodeCost_le_length v) (by omega)
    have h := decode_encode ((encodeVal v).length + 1) v [] hv hfuel
    simpa [processReader] using h
  · intro w hw
    rw [hw]

/-- Witness for C1 at a concrete nested value. -/
theorem respRoundtrip_witness :
    processReader (.avail (encodeVal (.arr [.bulk (strBytes "foo"), .null,
        .arr [.int (-5), .err designatedMsg], .int 1134]))) =
      .ok (.arr [.bulk (strBytes "foo"), .null,
        .arr [.int (-5), .err designatedMsg], .int 1134], []) := by
  have hinner : GenVal (.arr [.int (-5), .err designatedMsg]) := by
    refine GenVal.arr _ ?_
    intro v hv
    simp only [List.mem_cons, List.not_mem_nil, or_false] at hv
    rcases hv with rfl | rfl
    · exact GenVal.int _
    · exact GenVal.err
  have hv : GenVal (.arr [.bulk (strBytes "foo"), .null,
      .arr [.int (-5), .err designatedMsg], .int 1134]) := by
    refine GenVal.arr _ ?_
    intro v hv
    simp only [List.mem_cons, List.not_mem_nil, or_false] at hv
    rcases hv with rfl | rfl | rfl | rfl
    · exact GenVal.bulk _
    · exact GenVal.null
    · exact hinner
    · exact GenVal.int _
  exact (respRoundtrip _ hv).1

/-- C2: `process_reader` fails with `RadishConnectionError` when the first
byte read times out (`CLIENT_CONNECTION_TIMEOUT` is 300 seconds) or the
stream is at EOF; it fails with `RadishBadRequest` when the first byte is
none of `+ - : $ *` or when an array length prefix is negative and not
`-1`; and on well-formed input it reads exactly one top-level value,
leaving the rest of the stream unconsumed. -/
theorem processReaderContract :
    CLIENT_CONNECTION_TIMEOUT = 300 ∧
    processReader .timeout = .error (.connError "Timeout error") ∧
    processReader (.avail []) = .error (.connError "Empty request") ∧
    (∀ b rest, b ≠ 43 → b ≠ 45 → b ≠ 58 → b ≠ 36 → b ≠ 42 →
      processReader (.avail (b :: rest)) = .error (.badRequest "Bad first byte")) ∧
    (∀ (n : Int) rest, n < 0 → n ≠ -1 →
      processReader (.avail (42 :: (intToDec n ++ ([13, 10] ++ rest)))) =
        .error (.badRequest "Bad array length")) ∧
    (∀ v rest, GenVal v →
      processReader (.avail (encodeVal v ++ rest)) = .ok (v, rest)) := by
  refine ⟨rfl, rfl, rfl, ?_, ?_, ?_⟩
  · intro b rest h43 h45 h58 h36 h42
    simp only [processReader, List.length_cons]
    exact decodeVal_bad_first (rest.length + 1) b rest h43 h45 h58 h36 h42
  · intro n rest hneg hne
    simp only [processReader, List.length_cons]
    rw [decodeVal_star, readLine_int, stripBytes_int, parsePyInt_intToDec]
    simp only [if_neg hne, if_pos hneg]
  · intro v rest hv
    have hfuel : decodeCost v ≤ (encodeVal v ++ rest).length + 1 := by
      have := decodeCost_le_length v
      simp only [List.length_append]
      omega
    have h := decode_encode ((encodeVal v ++ rest).length + 1) v rest hv hfuel
    simpa [processReader] using h

/-- Witness for C2 at concrete inputs: an unknown first byte and a negative
non-`-1` array length. -/
theorem processReaderContract_witness :
    processReader (.avail [97]) = .error (.badRequest "Bad first byte") ∧
    processReader (.avail (42 :: (intToDec (-2) ++ ([13, 10] ++ [])))) =
      .error (.badRequest "Bad array length") :=
  ⟨processReaderContract.2.2.2.1 97 [] (by decide) (by decide) (by decide)
      (by decide) (by decide),
    processReaderContract.2.2.2.2.1 (-2) [] (by decide) (by decide)⟩

/-- C4: the codec is byte-exact on the spec's fixed vectors, and decoding
the null-array frame yields the one-element list holding a null bulk
string. -/
theorem codecFixedVectors :
    encodeVal (.bulk (strBytes "foobar")) = strBytes "$6\r\nfoobar\r\n" ∧
    encodeVal (.bulk []) = strBytes "$0\r\n\r\n" ∧
    encodeVal (.int 1134) = strBytes ":1134\r\n" ∧
    encodeVal (.arr [.bulk (strBytes "foo"), .bulk (strBytes "bar")]) =
      strBytes "*2\r\n$3\r\nfoo\r\n$3\r\nbar\r\n" ∧
    encodeVal (.arr [.bulk (strBytes "foo"), .null, .bulk (strBytes "bar")]) =
      strBytes "*3\r\n$3\r\nfoo\r\n$-1\r\n$3\r\nbar\r\n" ∧
    encodeVal .null = strBytes "$-1\r\n" ∧
    processReader (.avail (strBytes "*-1\r\n")) = .ok (.arr [.null], []) := by
  decide

/-! ### The store (`src/radish/database/storage.py`)

`RadishStore._store` is a Python dict whose keys and values are the dynamic
values handed over by the codec; it is modelled as an association list with
dict semantics (lookup of the unique binding; assignment replaces in place
or appends; deletion removes the binding).  Each command is modelled by a
function from the store and the argument list to the raised-or-returned
result paired with the (possibly updated) store; an `Except.error` result
models a raised exception, in which case the store component records the
state at raise time. -/

abbrev Store := List (Val × Val)

/-- Python `dict.get` / `in`: the value bound to the first (unique) equal
key. -/
def storeGet : Store → Val → Option Val
  | [], _ => none
  | p :: rest, k => if p.1 = k then some p.2 else storeGet rest k

/-- Python `key in dict`. -/
def storeHas (st : Store) (k : Val) : Bool := (storeGet st k).isSome

/-- Python `dict[k] = v`: replace the existing binding in place, else append. -/
def storeSet : Store → Val → Val → Store
  | [], k, v => [(k, v)]
  | p :: rest, k, v => if p.1 = k then (k, v) :: rest else p :: storeSet rest k v

/-- Python `del dict[k]` (on a key known to be present). -/
def storeDel : Store → Val → Store
  | [], _ => []
  | p :: rest, k => if p.1 = k then rest else p :: storeDel rest k

/-- The value coercion done by `RadishStore.set` (`str` values cannot occur
in the decoded-value domain `Val`, so only the `int` arm is reachable). -/
def pySetCoerce : Val → Val
  | .int i => .bulk (intToDec i)
  | v => v

/-- Result of one store command: the returned value or raised exception,
with the resulting store. -/
abbrev CmdResult := Except RErr Val × Store

def cmdGet (st : Store) : List Val → CmdResult
  | [k] => (.ok ((storeGet st k).getD .null), st)
  | _ => (.error (.badRequest "Wrong number of arguments for GET"), st)

def cmdSet (st : Store) : List Val → CmdResult
  | [k, v] => (.ok (.int 1), storeSet st k (pySetCoerce v))
  | _ => (.error (.badRequest "Wrong number of arguments for SET"), st)

/-- `RadishStore.delete`; its arity-error message names GET in the source. -/
def cmdDel (st : Store) : List Val → CmdResult
  | [k] =>
    if storeHas st k then (.ok (.int 1), storeDel st k) else (.ok (.int 0), st)
  | _ => (.error (.badRequest "Wrong number of arguments for GET"), st)

/-- `RadishStore.flush` takes no `*args`: calling it through the dispatch
table with any argument raises a host-level `TypeError`. -/
def cmdFlush (st : Store) : List Val → CmdResult
  | [] => (.ok (.int st.length), ([] : Store))
  | _ => (.error (.hostError "TypeError: flush() takes no arguments"), st)

def cmdExists (st : Store) : List Val → CmdResult
  | [] => (.error (.badRequest "Wrong number of arguments for EXISTS"), st)
  | args => (.ok (.int (args.countP fun k => storeHas st k)), st)

def cmdEcho (st : Store) : List Val → CmdResult
  | [] => (.error (.badRequest "Wrong number of arguments for ECHO"), st)
  | a :: _ => (.ok a, st)

def cmdPing (st : Store) : List Val → CmdResult
  | [] => (.ok (.bulk (strBytes "PONG")), st)
  | a :: _ => (.ok a, st)

def cmdQuit (st : Store) (_ : List Val) : CmdResult :=
  (.error (.connError "QUIT command"), st)

/-- The `zip(it, it)` pairing loop of `RadishStore.mset` (an unpaired
trailing key is dropped by `zip`, though the arity check precludes it). -/
def msetPairs : Store → List Val → Store
  | st, k :: v :: rest => msetPairs (storeSet st k (pySetCoerce v)) rest
  | st, _ => st

def cmdMset (st : Store) (args : List Val) : CmdResult :=
  if args = [] ∨ args.length % 2 = 1 then
    (.error (.badRequest "Wrong number of arguments for MSET"), st)
  else (.ok (.bulk (strBytes "OK")), msetPairs st args)

def cmdMget (st : Store) : List Val → CmdResult
  | [] => (.error (.badRequest "Wrong number of arguments for MGET"), st)
  | args => (.ok (.arr (args.map fun k => (storeGet st k).getD .null)), st)

/-- Python `len` on the stored value: defined on `bytes`, `list` and the
`Error` namedtuple (length 1); `TypeError` on `int` and `None`. -/
def pyLen : Val → Option Nat
  | .bulk s => some s.length
  | .arr l => some l.length
  | .err _ => some 1
  | _ => none

def cmdStrlen (st : Store) : List Val → CmdResult
  | [k] =>
    match storeGet st k with
    | none => (.ok (.int 0), st)
    | some v =>
      match pyLen v with
      | some n => (.ok (.int n), st)
      | none => (.error (.badRequest "Wrong type of value"), st)
  | _ => (.error (.badRequest "Wrong number of arguments for STRLEN"), st)

/-- ASCII uppercase of one byte (Python `bytes.upper`). -/
def byteUpper (b : Nat) : Nat := if 97 ≤ b ∧ b ≤ 122 then b - 32 else b

/-- Python `bytes.upper()`. -/
def bytesUpper (s : Bytes) : Bytes := s.map byteUpper

/-- `RadishStore.process_command(*request)`: an empty request list leaves
the mandatory `command` parameter unbound (`TypeError`); a non-bytes
command has no `.upper` (`AttributeError`); neither is a `KeyError`, so
neither becomes `BadRequest`.  An uppercased command outside the dispatch
table is a `KeyError`, caught and re-raised as `BadRequest(b'Bad command')`. -/
def processCommand (st : Store) : List Val → CmdResult
  | [] => (.error (.hostError "TypeError: missing argument: command"), st)
  | cmd :: args =>
    match cmd with
    | .bulk s =>
      let u := bytesUpper s
      if u = strBytes "GET" then cmdGet st args
      else if u = strBytes "SET" then cmdSet st args
      else if u = strBytes "DEL" then cmdDel st args
      else if u = strBytes "FLUSHDB" then cmdFlush st args
      else if u = strBytes "EXISTS" then cmdExists st args
      else if u = strBytes "ECHO" then cmdEcho st args
      else if u = strBytes "PING" then cmdPing st args
      else if u = strBytes "QUIT" then cmdQuit st args
      else if u = strBytes "MGET" then cmdMget st args
      else if u = strBytes "MSET" then cmdMset st args
      else if u = strBytes "STRLEN" then cmdStrlen st args
      else (.error (.badRequest "Bad command"), st)
    | _ => (.error (.hostError "AttributeError: no attribute upper"), st)

/-! ### Store lemmas and claims C5, C6 -/

theorem storeGet_storeSet (st : Store) (k v key : Val) :
    storeGet (storeSet st k v) key = if k = key then some v else storeGet st key := by
  induction st with
  | nil => simp only [storeSet, storeGet]
  | cons p rest ih =>
    simp only [storeSet]
    by_cases hpk : p.1 = k
    · simp only [if_pos hpk, storeGet]
      by_cases h : k = key
      · simp [h]
      · have : ¬p.1 = key := by rw [hpk]; exact h
        simp [h, this, hpk]
    · simp only [if_neg hpk, storeGet, ih]
      by_cases hp : p.1 = key
      · have : ¬k = key := fun hk => hpk (by rw [hp, hk])
        simp [hp, this]
      · simp [hp]

/-- The value assigned to `key` by the last matching pair of an MSET
argument list, if any. -/
def lastPairVal : List Val → Val → Option Val
  | k :: v :: rest, key =>
    (match lastPairVal rest key with
     | some w => some w
     | none => if k = key then some v else none)
  | _, _ => none

theorem storeGet_msetPairs : ∀ (args : List Val) (st : Store) (key : Val),
    storeGet (msetPairs st args) key =
      (match lastPairVal args key with
       | some v => some (pySetCoerce v)
       | none => storeGet st key)
  | [], _, _ => by simp [msetPairs, lastPairVal]
  | [_], _, _ => by simp [msetPairs, lastPairVal]
  | k :: v :: rest, st, key => by
    have ih := storeGet_msetPairs rest (storeSet st k (pySetCoerce v)) key
    simp only [msetPairs, lastPairVal, ih, storeGet_storeSet]
    cases lastPairVal rest key with
    | some w => simp
    | none => by_cases h : k = key <;> simp [h]

/-- C5: `process_command` with MSET and an odd (or zero) number of
arguments raises `BadRequest` with the store left completely unchanged
(the arity check precedes every write); with a positive even number of
arguments it returns `b"OK"` and stores every pair, the last binding of a
repeated key winning, existing bindings of untouched keys surviving. -/
theorem msetContract (st : Store) (args : List Val) :
    ((args = [] ∨ args.length % 2 = 1) →
      processCommand st (.bulk (strBytes "MSET") :: args) =
        (.error (.badRequest "Wrong number of arguments for MSET"), st)) ∧
    (args ≠ [] → args.length % 2 = 0 →
      processCommand st (.bulk (strBytes "MSET") :: args) =
        (.ok (.bulk (strBytes "OK")), msetPairs st args) ∧
      ∀ key : Val, storeGet (msetPairs st args) key =
        (match lastPairVal args key with
         | some v => some (pySetCoerce v)
         | none => storeGet st key)) := by
  have hdisp : processCommand st (.bulk (strBytes "MSET") :: args) = cmdMset st args := rfl
  constructor
  · intro h
    rw [hdisp]
    simp [cmdMset, h]
  · intro hne hev
    have hcond : ¬(args = [] ∨ args.length % 2 = 1) := by
      rintro (h | h)
      · exact hne h
      · omega
    refine ⟨by rw [hdisp]; simp [cmdMset, hcond], ?_⟩
    intro key
    exact storeGet_msetPairs args st key

/-- Witness for C5: two pairs stored, one overwriting an existing key. -/
theorem msetContract_witness :
    processCommand [(Val.bulk [107], Val.bulk [48])]
        [.bulk (strBytes "MSET"), .bulk [107], .bulk [49], .bulk [108], .int 7] =
      (.ok (.bulk (strBytes "OK")),
        msetPairs [(Val.bulk [107], Val.bulk [48])]
          [.bulk [107], .bulk [49], .bulk [108], .int 7]) ∧
    storeGet (msetPairs [(Val.bulk [107], Val.bulk [48])]
        [.bulk [107], .bulk [49], .bulk [108], .int 7]) (.bulk [108]) =
      some (.bulk [55]) := by
  have h := (msetContract [(Val.bulk [107], Val.bulk [48])]
      [.bulk [107], .bulk [49], .bulk [108], .int 7]).2 (by decide) (by decide)
  refine ⟨h.1, ?_⟩
  have h2 := h.2 (.bulk [108])
  simpa using h2

/-- C6 (code bug): `RadishStore.delete` rejects a wrong argument count
with the message `Wrong number of arguments for GET` — it names GET, not
DEL — and `RadishStore.flush` accepts no arguments at all, so FLUSHDB with
an argument raises a host-level `TypeError` rather than any `BadRequest`;
unknown commands do raise `BadRequest(b'Bad command')`, and PING with two
arguments (an arity the spec table forbids) raises nothing. -/
theorem arityMessageBug :
    processCommand [] [.bulk (strBytes "DEL"), .bulk [97], .bulk [98]] =
      (.error (.badRequest "Wrong number of arguments for GET"), []) ∧
    processCommand [] [.bulk (strBytes "FLUSHDB"), .bulk [97]] =
      (.error (.hostError "TypeError: flush() takes no arguments"), []) ∧
    processCommand [] [.bulk (strBytes "NOPE")] =
      (.error (.badRequest "Bad command"), []) ∧
    processCommand [] [.bulk (strBytes "PING"), .bulk [97], .bulk [98]] =
      (.ok (.bulk [97]), []) := by
  decide

/-! ### The server handler (`src/radish/database/server.py`) and claim C9 -/

/-- What one iteration of `Handler.run` does with a decoded request:
write a reply frame and continue, write an Error frame and continue, close
the connection and exit the loop, or let an unhandled host exception escape
`run` (only `RadishBadRequest`, `RadishConnectionError` and the builtin
`ConnectionError` are caught). -/
inductive HandlerOutcome where
  | reply (frame : Bytes)
  | errorFrame (frame : Bytes)
  | closed
  | hostFailure (msg : String)
deriving DecidableEq, Repr

/-- One iteration of the `while self._active` loop of `Handler.run`, after
the request has been decoded: validate that the request is a list, dispatch
to the store, and map the outcome per the source's `except` clauses. -/
def handlerStep (st : Store) (request : Val) : HandlerOutcome × Store :=
  match request with
  | .arr elems =>
    match processCommand st elems with
    | (.ok v, st') => (.reply (encodeVal v), st')
    | (.error (.badRequest m), st') => (.errorFrame (encodeVal (.err (strBytes m))), st')
    | (.error (.connError _), st') => (.closed, st')
    | (.error .osConnError, st') => (.closed, st')
    | (.error (.hostError m), st') => (.hostFailure m, st')
    | (.error (.protocolError m), st') => (.hostFailure m, st')
    | (.error (.clientError m), st') => (.hostFailure m, st')
  | _ => (.errorFrame (encodeVal (.err (strBytes "Bad request format"))), st)

/-- C9: the handler validates only that the decoded request is a list.  For
the empty Array `[]` the dispatch is invoked without a command and fails
with an unhandled host-level `TypeError` (no Error frame, the exception
escapes the loop); for the null-Array request, decoded as `[null]`, the
dispatch calls `.upper` on `None` and fails with an unhandled host-level
`AttributeError`; any non-list request is answered with a
`Bad request format` Error frame instead. -/
theorem handlerUnvalidatedRequests (st : Store) :
    handlerStep st (.arr []) =
      (.hostFailure "TypeError: missing argument: command", st) ∧
    handlerStep st (.arr [.null]) =
      (.hostFailure "AttributeError: no attribute upper", st) ∧
    (∀ v : Val, (∀ l, v ≠ .arr l) →
      handlerStep st v =
        (.errorFrame (encodeVal (.err (strBytes "Bad request format"))), st)) := by
  refine ⟨rfl, rfl, ?_⟩
  intro v hv
  cases v with
  | arr l => exact absurd rfl (hv l)
  | bulk s => rfl
  | int i => rfl
  | err m => rfl
  | null => rfl

/-- Witness for C9 at a concrete store and non-list request. -/
theorem handlerUnvalidatedRequests_witness :
    handlerStep [] (.arr []) =
      (.hostFailure "TypeError: missing argument: command", []) ∧
    handlerStep [] (.int 3) =
      (.errorFrame (encodeVal (.err (strBytes "Bad request format"))), []) :=
  ⟨(handlerUnvalidatedRequests []).1,
    (handlerUnvalidatedRequests []).2.2 (.int 3) (by intro l h; cases h)⟩

/-! ### Client-side argument encoding (`src/radish/client/client.py` and
`src/radish/client/flayer.py`) — claim C3 -/

/-- A host-level argument handed to `Connection.execute(*args)`: a byte
string, a text string (carried as its UTF-8 bytes), a signed integer, or
any other host type. -/
inductive HostArg where
  | bytes (s : Bytes)
  | text (s : Bytes)
  | int (i : Int)
  | other
deriving DecidableEq, Repr

/-- What `_write_response` emits for one element of the `args` tuple that
`Connection.execute` forwards verbatim: bytes become a BulkString frame,
ints become an Integer frame.  For a `str` or any other non-RESP type the
source reaches `raise RadishProtocolError(b'Unrecognized type: %s'
% type(data))`, but the bytes `%s` interpolation of a `type` object itself
raises `TypeError` before the `RadishProtocolError` is constructed, so the
program surfaces a host-level `TypeError`, never a `ProtocolError`. -/
def writeHostArg : HostArg → Except RErr Bytes
  | .bytes s => .ok (encodeVal (.bulk s))
  | .int i => .ok (encodeVal (.int i))
  | .text _ => .error (.hostError "TypeError: %b requires a bytes-like object")
  | .other => .error (.hostError "TypeError: %b requires a bytes-like object")

/-- The element loop of `_write_response` over the argument tuple. -/
def writeArgsList : List HostArg → Except RErr Bytes
  | [] => .ok []
  | a :: rest =>
    match writeHostArg a with
    | .error e => .error e
    | .ok x =>
      match writeArgsList rest with
      | .error e => .error e
      | .ok xs => .ok (x ++ xs)

/-- The bytes `Connection.execute(*args)` puts on the wire:
`process_writer(writer, args)` on the raw argument tuple — an Array header
followed by each element encoded by its own host type, with no coercion. -/
def executeWire (args : List HostArg) : Except RErr Bytes :=
  match writeArgsList args with
  | .error e => .error e
  | .ok body => .ok (42 :: (natToDec args.length ++ crlf ++ body))

/-- `FLayer._to_bytes` from the draft `flayer.py` (the coercion the claim
describes): bytes pass through, text becomes its UTF-8 bytes, ints become
decimal-ASCII bytes, anything else raises `RadishClientError`. -/
def toBytes : HostArg → Except RErr Bytes
  | .bytes s => .ok s
  | .text s => .ok s
  | .int i => .ok (intToDec i)
  | .other => .error (.clientError "Incorrect execute argument type")

/-- The element loop of `map(self._to_bytes, args)`. -/
def toBytesList : List HostArg → Except RErr (List Bytes)
  | [] => .ok []
  | a :: rest =>
    match toBytes a with
    | .error e => .error e
    | .ok x =>
      match toBytesList rest with
      | .error e => .error e
      | .ok xs => .ok (x :: xs)

/-- The wire bytes the claim describes: coerce every host argument to
bytes first, then encode the result as a RESP Array of BulkStrings. -/
def claimedExecuteWire (args : List HostArg) : Except RErr Bytes :=
  match toBytesList args with
  | .error e => .error e
  | .ok bs => .ok (encodeVal (.arr (bs.map .bulk)))

/-- C3 counterexample: `Connection.execute` does not coerce its arguments.
For `execute(b"SET", b"k", 1)` the wire bytes contain the Integer frame
`:1\r\n` where the claimed array-of-BulkStrings encoding has `$1\r\n1\r\n`,
and a text argument surfaces a host-level `TypeError` (the
`RadishProtocolError` message formatting fails first), not the claimed
`RadishClientError`. -/
theorem executeCoercion_counterexample :
    executeWire [.bytes (strBytes "SET"), .bytes [107], .int 1] ≠
      claimedExecuteWire [.bytes (strBytes "SET"), .bytes [107], .int 1] ∧
    executeWire [.bytes (strBytes "SET"), .bytes [107], .int 1] =
      .ok (strBytes "*3\r\n$3\r\nSET\r\n$1\r\nk\r\n:1\r\n") ∧
    claimedExecuteWire [.bytes (strBytes "SET"), .bytes [107], .int 1] =
      .ok (strBytes "*3\r\n$3\r\nSET\r\n$1\r\nk\r\n$1\r\n1\r\n") ∧
    executeWire [.text (strBytes "PING")] =
      .error (.hostError "TypeError: %b requires a bytes-like object") := by
  decide

/-- The mapping from a host argument to the RESP value `_write_response`
sends for it, when one exists. -/
def hostToVal : HostArg → Option Val
  | .bytes s => some (.bulk s)
  | .int i => some (.int i)
  | .text _ => none
  | .other => none

/-- The per-element encodings concatenate to `encodeList` of the mapped
values when every argument is representable. -/
theorem writeArgsList_eq_encodeList : ∀ (args : List HostArg) (vs : List Val),
    args.mapM hostToVal = some vs → writeArgsList args = .ok (encodeList vs)
  | [], vs, h => by
    simp only [List.mapM_nil, Option.pure_def, Option.some.injEq] at h
    simp [writeArgsList, ← h, encodeList]
  | a :: rest, vs, h => by
    simp only [List.mapM_cons, Option.pure_def, Option.bind_eq_bind,
      Option.bind_eq_some, Option.some.injEq] at h
    obtain ⟨v, hv, ws, hws, hvs⟩ := h
    have ih := writeArgsList_eq_encodeList rest ws hws
    have ha : writeHostArg a = .ok (encodeVal v) := by
      cases a with
      | bytes s =>
        simp only [hostToVal, Option.some.injEq] at hv
        simp [writeHostArg, ← hv]
      | int i =>
        simp only [hostToVal, Option.some.injEq] at hv
        simp [writeHostArg, ← hv]
      | text s => simp [hostToVal] at hv
      | other => simp [hostToVal] at hv
    simp [writeArgsList, ha, ih, ← hvs, encodeList]

theorem mapM_hostToVal_length : ∀ (args : List HostArg) (vs : List Val),
    args.mapM hostToVal = some vs → vs.length = args.length
  | [], vs, h => by
    simp only [List.mapM_nil, Option.pure_def, Option.some.injEq] at h
    simp [← h]
  | a :: rest, vs, h => by
    simp only [List.mapM_cons, Option.pure_def, Option.bind_eq_bind,
      Option.bind_eq_some, Option.some.injEq] at h
    obtain ⟨v, _, ws, hws, hvs⟩ := h
    have ih := mapM_hostToVal_length rest ws hws
    simp [← hvs, ih]

/-- C3 amended: `Connection.execute(*args)` forwards the raw argument
tuple to the codec, so the wire bytes are the RESP Array encoding of the
arguments mapped each by its own host type — BulkString frames for bytes
but Integer frames for ints — and a text-string or other non-RESP
argument surfaces a host-level `TypeError` (the else-branch's bytes `%s`
formatting of the type object fails before `RadishProtocolError` is
constructed), not `ClientError`; the claimed coercion (bytes pass,
text → UTF-8, int → decimal-ASCII, other → `ClientError`) is implemented
only by `FLayer._to_bytes` in the unused draft `flayer.py`. -/
theorem executeCoercion_amended (args : List HostArg) (vs : List Val)
    (h : args.mapM hostToVal = some vs) :
    executeWire args = .ok (encodeVal (.arr vs)) ∧
    (∀ s, toBytes (.bytes s) = .ok s) ∧
    (∀ s, toBytes (.text s) = .ok s) ∧
    (∀ i, toBytes (.int i) = .ok (intToDec i)) ∧
    toBytes .other = .error (.clientError "Incorrect execute argument type") := by
  refine ⟨?_, fun s => rfl, fun s => rfl, fun i => rfl, rfl⟩
  have hlen : vs.length = args.length := mapM_hostToVal_length args vs h
  rw [executeWire, writeArgsList_eq_encodeList args vs h]
  simp [encodeVal, hlen]

/-- Witness for the amended C3 at the counterexample's concrete input. -/
theorem executeCoercion_amended_witness :
    executeWire [.bytes (strBytes "SET"), .bytes [107], .int 1] =
      .ok (encodeVal (.arr [.bulk (strBytes "SET"), .bulk [107], .int 1])) :=
  (executeCoercion_amended [.bytes (strBytes "SET"), .bytes [107], .int 1]
    [.bulk (strBytes "SET"), .bulk [107], .int 1] (by decide)).1

/-! ### `Connection.execute` retry logic (`src/radish/client/client.py`) —
claim C7 -/

/-- Outcome of one send/receive attempt inside the `try` of
`Connection.execute`: a decoded reply, a `RadishConnectionError` from the
codec, or a builtin `ConnectionError` (reset / broken pipe). -/
inductive AttemptResult where
  | success (v : Val)
  | radishConnErr
  | osConnErr
deriving DecidableEq, Repr

/-- Result of `Connection.execute`: the reply; `RadishClientError` after
the codec-level connection error closed the owning pool; the re-raised
builtin `ConnectionError` when `try_reconnect` is off; or `stillRetrying`,
meaning the given finite prefix of attempt outcomes was exhausted with the
call still recursing. -/
inductive ExecResult where
  | ok (v : Val)
  | clientErr
  | osError
  | stillRetrying
deriving DecidableEq, Repr

/-- The retry structure of `Connection.execute`: each list element is the
outcome of one attempt; on a builtin `ConnectionError` with
`try_reconnect=True` the connection is marked disconnected and `execute`
re-invokes itself on the remaining attempts.  The source recursion has no
other exit, so exhausting any finite list of failing attempts leaves the
call still retrying. -/
def executeRetry (tryReconnect : Bool) : List AttemptResult → ExecResult
  | [] => .stillRetrying
  | o :: rest =>
    match o with
    | .success v => .ok v
    | .radishConnErr => .clientErr
    | .osConnErr =>
      if tryReconnect then executeRetry tryReconnect rest else .osError

/-- C7 counterexample: against a persistently dead peer (every attempt
ends in a builtin `ConnectionError`) the retry recursion is not bounded —
after one hundred failed attempts `execute` is still retrying, having
neither returned nor raised. -/
theorem executeRetry_counterexample :
    executeRetry true (List.replicate 100 .osConnErr) = .stillRetrying := by
  decide

/-- C7 amended: on a builtin connection reset/broken-pipe error with
`try_reconnect=True`, `execute` marks the connection disconnected and
re-invokes itself exactly once per attempt, so a transient error (one
failure followed by a success) yields the reply after that single retry;
but the recursion is unbounded — against a persistently dead peer no
number of attempts makes it return (the source caps nothing), and with
`try_reconnect=False` the error is re-raised at once. -/
theorem executeRetry_amended :
    (∀ (v : Val) (rest : List AttemptResult),
      executeRetry true (.osConnErr :: .success v :: rest) = .ok v) ∧
    (∀ n : Nat, executeRetry true (List.replicate n .osConnErr) = .stillRetrying) ∧
    (∀ rest : List AttemptResult,
      executeRetry false (.osConnErr :: rest) = .osError) := by
  refine ⟨fun v rest => rfl, ?_, fun rest => rfl⟩
  intro n
  induction n with
  | zero => rfl
  | succ n ih => simpa [List.replicate_succ, executeRetry] using ih

/-! ### The connection pool (`src/radish/client/client.py`) — claim C8 -/

/-- The `_inited` / `_closed` flags of `ConnectionPool`. -/
structure PoolState where
  inited : Bool
  closed : Bool
deriving DecidableEq, Repr

/-- Result of a pool operation: normal return, or a raised
`RadishClientError` with its message. -/
inductive PoolRes where
  | ok
  | clientErr (msg : String)
deriving DecidableEq, Repr

/-- `ConnectionPool._init`: an already-inited pool returns `None`
immediately — before the `closed` check; otherwise a closed pool raises
`ClientError("Pool is closed")`; otherwise the minimum connections are
opened and `_inited` is set. -/
def poolInit (p : PoolState) : PoolRes × PoolState :=
  if p.inited then (.ok, p)
  else if p.closed then (.clientErr "Pool is closed", p)
  else (.ok, { p with inited := true })

/-- `ConnectionPool._check_inited`, called by `_acquire`, `release` and
`close`. -/
def checkInited (p : PoolState) : PoolRes :=
  if !p.inited then .clientErr "Pool is not inited"
  else if p.closed then .clientErr "Pool is closed"
  else .ok

/-- The flag-level behaviour of `ConnectionPool._acquire`: the
`_check_inited` guard, after which the LIFO pop proceeds. -/
def poolAcquire (p : PoolState) : PoolRes × PoolState := (checkInited p, p)

/-- The flag-level behaviour of `ConnectionPool.close`: the guard, then all
member connections are closed and `_closed` is set. -/
def poolClose (p : PoolState) : PoolRes × PoolState :=
  match checkInited p with
  | .clientErr m => (.clientErr m, p)
  | .ok => (.ok, { p with closed := true })

/-- C8 counterexample: on a pool whose `closed` flag is set but that was
already inited — exactly the state every pool is in after `close()` —
`_init` returns immediately with no error: the `if self._inited: return`
short-circuit precedes the closed check, so init does not fail with
`ClientError("Pool is closed")`. -/
theorem poolInit_counterexample :
    poolInit { inited := true, closed := true } =
      (.ok, { inited := true, closed := true }) := by
  decide

/-- C8 amended: `init` fails with `ClientError("Pool is closed")` only
when the closed flag is set on a pool that was never inited (when already
inited, init returns at once even if closed); and after `close()` has
completed, every subsequent `acquire` raises
`ClientError("Pool is closed")`. -/
theorem poolClosed_amended :
    (∀ p : PoolState, p.closed = true → p.inited = false →
      poolInit p = (.clientErr "Pool is closed", p)) ∧
    (∀ p p' : PoolState, poolClose p = (.ok, p') →
      poolAcquire p' = (.clientErr "Pool is closed", p')) := by
  constructor
  · intro p hc hi
    simp [poolInit, hc, hi]
  · intro p p' h
    simp only [poolClose] at h
    rcases hchk : checkInited p with _ | m
    · rw [hchk] at h
      have hp' : p' = { p with closed := true } := by
        cases h; rfl
      have hin : p.inited = true := by
        by_contra hni
        have hfalse : p.inited = false := by
          cases hx : p.inited
          · rfl
          · exact absurd hx hni
        simp [checkInited, hfalse] at hchk
      simp [poolAcquire, hp', checkInited, hin]
    · rw [hchk] at h
      cases h

/-- Witness for the amended C8: a closed never-inited pool rejects init,
and acquire after close on a fresh inited pool rejects with
`Pool is closed`. -/
theorem poolClosed_amended_witness :
    poolInit { inited := false, closed := true } =
      (.clientErr "Pool is closed", { inited := false, closed := true }) ∧
    poolAcquire { inited := true, closed := true } =
      (.clientErr "Pool is closed", { inited := true, closed := true }) :=
  ⟨poolClosed_amended.1 { inited := false, closed := true } rfl rfl,
    poolClosed_amended.2 { inited := true, closed := false }
      { inited := true, closed := true } rfl⟩

/-! ### Releasing a pooled connection (`PoolObjContext.__aexit__`,
`Connection.close`, `ConnectionPool.release`) — claim C10 -/

/-- The observable steps of `Connection.close()` in source order. -/
inductive CloseEvent where
  | cancelledTimer
  | sentQuit
  | released
  | markedDisconnected
deriving DecidableEq, Repr

/-- The connection flags `Connection.close` consults. -/
structure ConnFlags where
  connected : Bool
  pooled : Bool
  acquired : Bool
deriving DecidableEq, Repr

/-- `Connection.close()` (which `PoolObjContext.__aexit__` invokes on
scope exit): cancel the idle timer; if connected, `execute(b"QUIT")`, then
— while `self._connected` is still true — release back to the pool when
pool-owned and acquired, and only afterwards drop the stream and clear
`_connected`.  Returns the emitted event trace and the resulting flags. -/
def closeRun (c : ConnFlags) : List CloseEvent × ConnFlags :=
  if c.connected then
    ([.cancelledTimer, .sentQuit] ++
      (if c.pooled && c.acquired then [.released] else []) ++
      [.markedDisconnected],
     { c with connected := false,
              acquired := if c.pooled && c.acquired then false else c.acquired })
  else ([.cancelledTimer], c)

/-- C10 counterexample: for a connected, pool-owned, acquired connection
the trace of `close()` releases the connection back onto the LIFO before
marking it disconnected — the opposite of the claimed order (QUIT, mark
disconnected, only then release). -/
theorem closeOrder_counterexample :
    (closeRun { connected := true, pooled := true, acquired := true }).1 =
      [.cancelledTimer, .sentQuit, .released, .markedDisconnected] ∧
    ¬((closeRun { connected := true, pooled := true, acquired := true }).1.indexOf
        CloseEvent.markedDisconnected <
      (closeRun { connected := true, pooled := true, acquired := true }).1.indexOf
        CloseEvent.released) := by
  decide

/-- C10 amended: the acquire guard's scope exit invokes
`Connection.close()`, which sends QUIT, releases the connection back onto
the pool's LIFO while it is still marked connected, and only then marks it
disconnected; once `close()` completes the released connection is in the
disconnected state, so its next `execute` must lazily reconnect. -/
theorem closeOrder_amended (c : ConnFlags) (hc : c.connected = true)
    (hp : c.pooled = true) (ha : c.acquired = true) :
    (closeRun c).1 =
      [.cancelledTimer, .sentQuit, .released, .markedDisconnected] ∧
    (closeRun c).1.indexOf CloseEvent.released <
      (closeRun c).1.indexOf CloseEvent.markedDisconnected ∧
    (closeRun c).2.connected = false := by
  refine ⟨by simp [closeRun, hc, hp, ha], ?_, by simp [closeRun, hc, hp, ha]⟩
  have htr : (closeRun c).1 =
      [.cancelledTimer, .sentQuit, .released, .markedDisconnected] := by
    simp [closeRun, hc, hp, ha]
  rw [htr]
  decide

/-- Witness for the amended C10 at the concrete acquired pooled
connection. -/
theorem closeOrder_amended_witness :
    (closeRun { connected := true, pooled := true, acquired := true }).1 =
      [.cancelledTimer, .sentQuit, .released, .markedDisconnected] ∧
    (closeRun { connected := true, pooled := true, acquired := true }).2.connected
      = false :=
  ⟨(closeOrder_amended { connected := true, pooled := true, acquired := true }
      rfl rfl rfl).1,
    (closeOrder_amended { connected := true, pooled := true, acquired := true }
      rfl rfl rfl).2.2⟩

end Radish
